import Mathlib

/-!
# Win32 runner window (`windows/runner/win32_window.cpp`)

A shallow embedding of the window-class registrar, the live-window counter,
the DPI helpers and `Scale`, together with proofs about them.

Operating-system calls are modelled by a record of deterministic responses
(`Os`) and by the list of calls a function issues, in program order.
-/

namespace Runner

/-! ## Handles, constants and the operating system -/

/-- Handles and addresses are machine words; `0` is the null handle / `nullptr`. -/
abbrev HANDLE := Nat

/-- The null pointer. -/
def nullptr : HANDLE := 0

/-- Line 19: `kWindowClassName`. -/
def kWindowClassName : String := "FLUTTER_RUNNER_WIN32_WINDOW"

/-- Class style `CS_VREDRAW` of `winuser.h`. -/
def CS_VREDRAW : Nat := 0x0001

/-- Class style `CS_HREDRAW` of `winuser.h`. -/
def CS_HREDRAW : Nat := 0x0002

/-- Cursor `IDC_ARROW` of `winuser.h`, as the integer resource it stands for. -/
def IDC_ARROW : Nat := 32512

/-- Window procedures that can be stored in a window class. -/
inductive WNDPROC where
  | null
  | Win32Window_WndProc
  deriving DecidableEq, Repr

/-- The `WNDCLASS` record passed to `RegisterClass`. -/
structure WNDCLASS where
  style : Nat
  lpfnWndProc : WNDPROC
  cbClsExtra : Int
  cbWndExtra : Int
  hInstance : HANDLE
  hIcon : HANDLE
  hCursor : HANDLE
  hbrBackground : HANDLE
  lpszMenuName : Option String
  lpszClassName : Option String
  deriving DecidableEq, Repr

/-- Line 91: a value-initialised `WNDCLASS`; every member is zero. -/
def WNDCLASS.zero : WNDCLASS :=
  { style := 0, lpfnWndProc := WNDPROC.null, cbClsExtra := 0, cbWndExtra := 0,
    hInstance := 0, hIcon := 0, hCursor := 0, hbrBackground := 0,
    lpszMenuName := none, lpszClassName := none }

/-- Responses of the operating system to the calls whose result the code uses,
and the resource identifier declared in `resource.h`. -/
structure Os where
  LoadLibraryA : String → HANDLE
  GetProcAddress : HANDLE → String → HANDLE
  LoadCursor : HANDLE → Nat → HANDLE
  GetModuleHandle : Option String → HANDLE
  LoadIcon : HANDLE → Nat → HANDLE
  IDI_APP_ICON : Nat

/-- One call into the operating system, with its arguments. -/
inductive OsCall where
  | LoadLibraryA (name : String)
  | GetProcAddress (module : HANDLE) (name : String)
  | enable_non_client_dpi_scaling (proc : HANDLE) (hwnd : HANDLE)
  | FreeLibrary (module : HANDLE)
  | LoadCursor (hInstance : HANDLE) (name : Nat)
  | GetModuleHandle (name : Option String)
  | LoadIcon (hInstance : HANDLE) (name : Nat)
  | RegisterClass (window_class : WNDCLASS)
  | UnregisterClass (className : String) (hInstance : HANDLE)
  deriving DecidableEq, Repr

/-- An operating system that answers every call with the handle `1`; the
application icon has resource number `101`. -/
def Os.sample : Os :=
  { LoadLibraryA := fun _ => 1, GetProcAddress := fun _ _ => 1, LoadCursor := fun _ _ => 1,
    GetModuleHandle := fun _ => 1, LoadIcon := fun _ _ => 1, IDI_APP_ICON := 101 }

/-- Whether a call is a `RegisterClass`. -/
def OsCall.isRegisterClass : OsCall → Bool
  | OsCall.RegisterClass _ => true
  | _ => false

/-- Number of `RegisterClass` calls in a list of calls. -/
def countRegisterClass (calls : List OsCall) : Nat :=
  (calls.filter OsCall.isRegisterClass).length

/-! ## `EnableFullDpiSupportIfAvailable` (lines 42-54) -/

/-- Lines 42-54. The result is the list of operating-system calls made. -/
def EnableFullDpiSupportIfAvailable (os : Os) (hwnd : HANDLE) : List OsCall :=
  let user32_module := os.LoadLibraryA "User32.dll"
  let t0 := [OsCall.LoadLibraryA "User32.dll"]
  if user32_module = 0 then
    t0
  else
    let enable_non_client_dpi_scaling :=
      os.GetProcAddress user32_module "EnableNonClientDpiScaling"
    let t1 := t0 ++ [OsCall.GetProcAddress user32_module "EnableNonClientDpiScaling"]
    let t2 :=
      if enable_non_client_dpi_scaling ≠ nullptr then
        t1 ++ [OsCall.enable_non_client_dpi_scaling enable_non_client_dpi_scaling hwnd]
      else
        t1
    t2 ++ [OsCall.FreeLibrary user32_module]

/-! ## `WindowClassRegistrar` (lines 59-112) -/

/-- The data members of a `WindowClassRegistrar` object (line 84). -/
structure WindowClassRegistrar where
  class_registered_ : Bool
  deriving DecidableEq, Repr

/-- The defaulted constructor (line 80) with the member initialiser of line 84. -/
def WindowClassRegistrar.new : WindowClassRegistrar :=
  { class_registered_ := false }

/-- The result of a member function: its return value, the object afterwards
and the operating-system calls issued, in order. -/
structure Outcome (α : Type) where
  ret : α
  self : WindowClassRegistrar
  calls : List OsCall

/-- The `WNDCLASS` built by lines 91-102. -/
def GetWindowClass.window_class (os : Os) : WNDCLASS :=
  let window_class := WNDCLASS.zero
  let window_class := { window_class with hCursor := os.LoadCursor nullptr IDC_ARROW }
  let window_class := { window_class with lpszClassName := some kWindowClassName }
  let window_class := { window_class with style := CS_HREDRAW ||| CS_VREDRAW }
  let window_class := { window_class with cbClsExtra := 0 }
  let window_class := { window_class with cbWndExtra := 0 }
  let window_class := { window_class with hInstance := os.GetModuleHandle none }
  let window_class :=
    { window_class with hIcon := os.LoadIcon window_class.hInstance os.IDI_APP_ICON }
  let window_class := { window_class with hbrBackground := 0 }
  let window_class := { window_class with lpszMenuName := none }
  { window_class with lpfnWndProc := WNDPROC.Win32Window_WndProc }

/-- Lines 89-107: `WindowClassRegistrar::GetWindowClass`. -/
def GetWindowClass (os : Os) (self : WindowClassRegistrar) : Outcome String :=
  if !self.class_registered_ then
    let window_class := GetWindowClass.window_class os
    { ret := kWindowClassName
      self := { self with class_registered_ := true }
      calls :=
        [ OsCall.LoadCursor nullptr IDC_ARROW,
          OsCall.GetModuleHandle none,
          OsCall.LoadIcon window_class.hInstance os.IDI_APP_ICON,
          OsCall.RegisterClass window_class ] }
  else
    { ret := kWindowClassName, self := self, calls := [] }

/-- Lines 109-112: `WindowClassRegistrar::UnregisterWindowClass`. -/
def UnregisterWindowClass (self : WindowClassRegistrar) : Outcome Unit :=
  { ret := ()
    self := { self with class_registered_ := false }
    calls := [OsCall.UnregisterClass kWindowClassName nullptr] }

/-- The object after `n` consecutive `GetWindowClass` calls. -/
def getWindowClassTimes (os : Os) : Nat → WindowClassRegistrar → WindowClassRegistrar
  | 0, self => self
  | n + 1, self => getWindowClassTimes os n (GetWindowClass os self).self

/-- The operating-system calls issued by `n` consecutive `GetWindowClass`
calls, in order. -/
def getWindowClassCalls (os : Os) : Nat → WindowClassRegistrar → List OsCall
  | 0, _ => []
  | n + 1, self =>
    (GetWindowClass os self).calls ++ getWindowClassCalls os n (GetWindowClass os self).self

/-! ## `WindowClassRegistrar::GetInstance` (lines 64-69, 87) -/

/-- The static member `instance_` together with the free store. Objects made
by `new WindowClassRegistrar()` are kept in allocation order; the object at
position `i` has address `i + 1`, so no object has the null address. -/
structure Statics where
  instance_ : HANDLE
  heap : List WindowClassRegistrar
  deriving DecidableEq, Repr

/-- Line 87: `instance_` starts as `nullptr`; nothing has been allocated. -/
def Statics.initial : Statics :=
  { instance_ := nullptr, heap := [] }

/-- Lines 64-69: `WindowClassRegistrar::GetInstance`. Returns the pointer and
the statics afterwards. -/
def GetInstance (s : Statics) : HANDLE × Statics :=
  if s.instance_ = nullptr then
    let s1 : Statics :=
      { instance_ := s.heap.length + 1, heap := s.heap ++ [WindowClassRegistrar.new] }
    (s1.instance_, s1)
  else
    (s.instance_, s)

/-- The pointers returned by `n` consecutive `GetInstance` calls, in order,
and the statics after the last one. -/
def getInstanceTimes : Nat → Statics → List HANDLE × Statics
  | 0, s => ([], s)
  | n + 1, s =>
    let r := GetInstance s
    let rest := getInstanceTimes n r.2
    (r.1 :: rest.1, rest.2)

/-! ## `g_active_window_count` (lines 30, 114-121) -/

/-- Largest value of `int`. -/
def INT_MAX : Int := 2147483647

/-- Smallest value of `int`. -/
def INT_MIN : Int := -2147483648

/-- Reduction of an integer to the 32-bit two's-complement `int` range: the
result of `int` arithmetic on the Windows targets of this runner. Past the
ends of the range the language itself leaves the result undefined. -/
def wrapInt (x : Int) : Int :=
  (x + 2147483648) % 4294967296 - 2147483648

/-- The process state seen by the constructor and destructor of `Win32Window`:
the global counter of line 30 and the operating-system resources, kept as the
addresses of the objects whose window exists. -/
structure Process where
  g_active_window_count : Int
  windows : List HANDLE
  deriving DecidableEq, Repr

/-- Line 30: the counter starts at `0`. -/
def Process.initial (windows : List HANDLE) : Process :=
  { g_active_window_count := 0, windows := windows }

/-- Modelled from the spec: the member function `Win32Window::Destroy`, called
at lines 120 and 126, whose body is not in the source. The spec says that the
window "tears down OS resources on close": the window of the object at `this`
is released. The spec gives it no effect on a counter, and it has none. -/
def Win32Window.Destroy (this : HANDLE) (p : Process) : Process :=
  { p with windows := p.windows.erase this }

/-- Lines 114-116: the constructor `Win32Window::Win32Window`. -/
def Win32Window.constructor (p : Process) : Process :=
  { p with g_active_window_count := wrapInt (p.g_active_window_count + 1) }

/-- Lines 118-121: the destructor of `Win32Window`, for the object at `this`:
the counter is decremented, then `Destroy` runs. -/
def Win32Window.destructor (this : HANDLE) (p : Process) : Process :=
  Win32Window.Destroy this
    { p with g_active_window_count := wrapInt (p.g_active_window_count - 1) }

/-- A construction or a destruction of the `Win32Window` object at an address. -/
inductive Lifecycle where
  | construct (this : HANDLE)
  | destroy (this : HANDLE)
  deriving DecidableEq, Repr

/-- One lifecycle event executed on the process state. -/
def Lifecycle.exec (p : Process) : Lifecycle → Process
  | Lifecycle.construct _ => Win32Window.constructor p
  | Lifecycle.destroy this => Win32Window.destructor this p

/-- A sequence of lifecycle events executed in order. -/
def runLifecycle (p : Process) (events : List Lifecycle) : Process :=
  events.foldl Lifecycle.exec p

/-- Number of constructions in a sequence of events. -/
def constructions : List Lifecycle → Nat
  | [] => 0
  | Lifecycle.construct _ :: es => constructions es + 1
  | Lifecycle.destroy _ :: es => constructions es

/-- Number of destructions in a sequence of events. -/
def destructions : List Lifecycle → Nat
  | [] => 0
  | Lifecycle.construct _ :: es => destructions es
  | Lifecycle.destroy _ :: es => destructions es + 1

/-- The addresses of the objects that exist after the events, starting from
the objects in `live`. -/
def liveAfter (live : List HANDLE) : List Lifecycle → List HANDLE
  | [] => live
  | Lifecycle.construct this :: es => liveAfter (this :: live) es
  | Lifecycle.destroy this :: es => liveAfter (live.erase this) es

/-- Only live objects are destroyed: every destruction is of an object that
exists at that moment, starting from the objects in `live`. -/
def onlyLiveDestroyed (live : List HANDLE) : List Lifecycle → Bool
  | [] => true
  | Lifecycle.construct this :: es => onlyLiveDestroyed (this :: live) es
  | Lifecycle.destroy this :: es =>
    live.contains this && onlyLiveDestroyed (live.erase this) es

/-- At most `INT_MAX` objects are live at any time: every construction happens
with fewer than `INT_MAX` live objects, starting from the objects in `live`. -/
def liveWithinInt (live : List HANDLE) : List Lifecycle → Bool
  | [] => true
  | Lifecycle.construct this :: es =>
    decide (live.length < 2147483647) && liveWithinInt (this :: live) es
  | Lifecycle.destroy this :: es => liveWithinInt (live.erase this) es

/-- The construction of one object at each of the addresses `1, ..., n`. -/
def constructMany (n : Nat) : List Lifecycle :=
  (List.range n).map (fun i => Lifecycle.construct (i + 1))

/-! ## `Scale` (lines 36-38)

`double` is IEEE 754 binary64 and arithmetic rounds to nearest, ties to even.
A finite value is kept as sign, significand and exponent; its value is
`(-1)^sign * mant * 2^exp`. -/

/-- Halving `a` until it is `0`, at most `fuel` times; the number of halvings. -/
def bitLengthAux : Nat → Nat → Nat
  | 0, _ => 0
  | fuel + 1, a => if a = 0 then 0 else bitLengthAux fuel (a / 2) + 1

/-- The number of binary digits of `a`; `0` has none. -/
def bitLength (a : Nat) : Nat :=
  bitLengthAux a a

/-- A value of type `double`. -/
inductive Double where
  | finite (sign : Bool) (mant : Nat) (exp : Int)
  | inf (sign : Bool)
  | nan
  deriving DecidableEq, Repr

/-- The triples that denote a finite binary64 value: a significand of at most
53 bits, an exponent not below that of the subnormals, and a magnitude below
`2^1024`. Infinities and NaN are values of the type as well. -/
def Double.Valid : Double → Prop
  | Double.finite _ mant exp =>
    mant < 2 ^ 53 ∧ -1074 ≤ exp ∧ (bitLength mant : Int) + exp ≤ 1024
  | _ => True

instance Double.decidableValid (d : Double) : Decidable d.Valid := by
  cases d <;> unfold Double.Valid <;> infer_instance

/-- The rational number a finite `double` stands for. -/
def Double.toRat : Double → Option ℚ
  | Double.finite sign mant exp =>
    some ((if sign then -1 else 1) * (mant : ℚ) * (2 : ℚ) ^ exp)
  | _ => none

/-- The quotient `a / 2^k` rounded to the nearest integer, ties to even. -/
def roundNearestEven (a k : Nat) : Nat :=
  let q := a / 2 ^ k
  let r := a % 2 ^ k
  if 2 * r < 2 ^ k then q
  else if 2 * r = 2 ^ k then (if q % 2 = 0 then q else q + 1)
  else q + 1

/-- The `double` nearest to `(-1)^sign * a * 2^e`, ties to even: the `k` low
bits that do not fit 53 bits of significand, or lie below the smallest
subnormal exponent, are rounded away; a carry out of the significand moves to
the exponent; a result of magnitude `2^1024` or more is an infinity. -/
def Double.round (sign : Bool) (a : Nat) (e : Int) : Double :=
  let k : Nat := (max ((bitLength a : Int) - 53) (-1074 - e)).toNat
  let q := roundNearestEven a k
  let e1 : Int := e + k
  if q = 0 then Double.finite sign 0 0
  else if (bitLength q : Int) + e1 > 1024 then Double.inf sign
  else if q = 2 ^ 53 then Double.finite sign (2 ^ 52) (e1 + 1)
  else Double.finite sign q e1

/-- Conversion of an `int` to `double`; exact, an `int` has at most 32 bits. -/
def Double.ofInt (i : Int) : Double :=
  Double.finite (decide (i < 0)) i.natAbs 0

/-- The product of two `double`s. -/
def Double.mul : Double → Double → Double
  | Double.nan, _ => Double.nan
  | _, Double.nan => Double.nan
  | Double.inf s1, Double.inf s2 => Double.inf (xor s1 s2)
  | Double.inf s1, Double.finite s2 m2 _ =>
    if m2 = 0 then Double.nan else Double.inf (xor s1 s2)
  | Double.finite s1 m1 _, Double.inf s2 =>
    if m1 = 0 then Double.nan else Double.inf (xor s1 s2)
  | Double.finite s1 m1 e1, Double.finite s2 m2 e2 =>
    Double.round (xor s1 s2) (m1 * m2) (e1 + e2)

/-- The magnitude `mant * 2^exp` without its fractional part. -/
def truncNat (mant : Nat) (exp : Int) : Nat :=
  if 0 ≤ exp then mant * 2 ^ exp.toNat else mant / 2 ^ (-exp).toNat

/-- The conversion `static_cast<int>` of a `double`: the fractional part is
discarded; there is no result (the behaviour is undefined) when the truncated
value is not an `int`. -/
def static_cast_int : Double → Option Int
  | Double.finite sign mant exp =>
    let t : Nat := truncNat mant exp
    let v : Int := if sign then -(t : Int) else (t : Int)
    if INT_MIN ≤ v ∧ v ≤ INT_MAX then some v else none
  | _ => none

/-- Lines 36-38: `Scale`. The `int` operand is converted to `double`, the
product is taken in `double`, and the result is converted back to `int`. -/
def Scale (source : Int) (scale_factor : Double) : Option Int :=
  static_cast_int (Double.mul (Double.ofInt source) scale_factor)

/-- The integer part of a rational number: the nearest integer in the
direction of zero. -/
def integerPart (x : ℚ) : Int :=
  if 0 ≤ x then ⌊x⌋ else ⌈x⌉

/-- The exact (unrounded) product of an `int` and a finite `double`. -/
def exactProduct (source : Int) (scale_factor : Double) : Option ℚ :=
  (scale_factor.toRat).map (fun v => (source : ℚ) * v)

/-- The literal `1.0`. -/
def Double.one : Double := Double.finite false 1 0

/-- The literal `1.2`: the `double` nearest to it, `0x3FF3333333333333`. -/
def Double.onePointTwo : Double := Double.finite false 0x13333333333333 (-52)

/-- The literal `2.9`: the `double` nearest to it, `0x4007333333333333`. -/
def Double.twoPointNine : Double := Double.finite false 0x17333333333333 (-51)

/-- The literal `-2.9`. -/
def Double.minusTwoPointNine : Double := Double.finite true 0x17333333333333 (-51)

/-! # Theorems -/

/-! ## The window-class registrar -/

theorem GetWindowClass_self (os : Os) (self : WindowClassRegistrar) :
    (GetWindowClass os self).self = { class_registered_ := true } := by
  cases self with
  | mk b => cases b <;> simp [GetWindowClass]

theorem countRegisterClass_unregistered (os : Os) (self : WindowClassRegistrar)
    (h : self.class_registered_ = false) :
    countRegisterClass (GetWindowClass os self).calls = 1 := by
  simp [GetWindowClass, h, countRegisterClass, OsCall.isRegisterClass]

theorem getWindowClassTimes_registered (os : Os) (n : Nat) :
    getWindowClassTimes os n { class_registered_ := true } = { class_registered_ := true } := by
  induction n with
  | zero => rfl
  | succ n ih => simpa [getWindowClassTimes, GetWindowClass] using ih

theorem getWindowClassCalls_registered (os : Os) (n : Nat) :
    getWindowClassCalls os n { class_registered_ := true } = [] := by
  induction n with
  | zero => rfl
  | succ n ih => simpa [getWindowClassCalls, GetWindowClass] using ih

theorem getWindowClassTimes_succ (os : Os) (n : Nat) (self : WindowClassRegistrar) :
    getWindowClassTimes os (n + 1) self = { class_registered_ := true } := by
  simp [getWindowClassTimes, GetWindowClass_self, getWindowClassTimes_registered]

/-- C1: in every state `GetWindowClass` returns `kWindowClassName`, which is
`FLUTTER_RUNNER_WIN32_WINDOW`; a `RegisterClass` call is among the calls it
issues exactly when `class_registered_` was false on entry; and on exit
`class_registered_` is true. -/
theorem GetWindowClass_contract (os : Os) (self : WindowClassRegistrar) :
    (GetWindowClass os self).ret = kWindowClassName ∧
    kWindowClassName = "FLUTTER_RUNNER_WIN32_WINDOW" ∧
    ((∃ window_class, OsCall.RegisterClass window_class ∈ (GetWindowClass os self).calls) ↔
      self.class_registered_ = false) ∧
    (GetWindowClass os self).self.class_registered_ = true := by
  cases self with
  | mk b => cases b <;> simp [GetWindowClass, kWindowClassName]

/-- C2: for every `n ≥ 1`, `n` consecutive `GetWindowClass` calls on a
registrar that starts unregistered issue exactly one `RegisterClass`, issued
by the first call, and every call after the first issues no operating-system
call and leaves the registrar unchanged. -/
theorem GetWindowClass_registers_once (os : Os) (self : WindowClassRegistrar) (n : Nat)
    (hself : self.class_registered_ = false) (hn : 1 ≤ n) :
    countRegisterClass (getWindowClassCalls os n self) = 1 ∧
    countRegisterClass (GetWindowClass os self).calls = 1 ∧
    ∀ k, 1 ≤ k → k < n →
      (GetWindowClass os (getWindowClassTimes os k self)).calls = [] ∧
      (GetWindowClass os (getWindowClassTimes os k self)).self = getWindowClassTimes os k self := by
  obtain ⟨m, rfl⟩ : ∃ m, n = m + 1 := ⟨n - 1, by omega⟩
  refine ⟨?_, countRegisterClass_unregistered os self hself, ?_⟩
  · have h1 := countRegisterClass_unregistered os self hself
    simp only [getWindowClassCalls, GetWindowClass_self, getWindowClassCalls_registered,
      List.append_nil]
    exact h1
  · intro k hk _
    obtain ⟨j, rfl⟩ : ∃ j, k = j + 1 := ⟨k - 1, by omega⟩
    rw [getWindowClassTimes_succ]
    simp [GetWindowClass]

/-- Witness for C2: three consecutive calls on a fresh registrar. -/
theorem GetWindowClass_registers_once_witness :
    WindowClassRegistrar.new.class_registered_ = false ∧ 1 ≤ 3 ∧
    (countRegisterClass (getWindowClassCalls Os.sample 3 WindowClassRegistrar.new) = 1 ∧
    countRegisterClass (GetWindowClass Os.sample WindowClassRegistrar.new).calls = 1 ∧
    ∀ k, 1 ≤ k → k < 3 →
      (GetWindowClass Os.sample
        (getWindowClassTimes Os.sample k WindowClassRegistrar.new)).calls = [] ∧
      (GetWindowClass Os.sample
        (getWindowClassTimes Os.sample k WindowClassRegistrar.new)).self =
          getWindowClassTimes Os.sample k WindowClassRegistrar.new) :=
  ⟨rfl, by decide,
    GetWindowClass_registers_once Os.sample WindowClassRegistrar.new 3 rfl (by decide)⟩

/-- C5: in every state `UnregisterWindowClass` issues exactly one call,
`UnregisterClass` on `kWindowClassName`, and clears `class_registered_`; the
next `GetWindowClass` call issues exactly one `RegisterClass`, for a window
class whose name is `kWindowClassName`, and returns that same name. -/
theorem UnregisterWindowClass_undoes_registration (os : Os) (self : WindowClassRegistrar) :
    (UnregisterWindowClass self).calls = [OsCall.UnregisterClass kWindowClassName nullptr] ∧
    (UnregisterWindowClass self).self.class_registered_ = false ∧
    countRegisterClass (GetWindowClass os (UnregisterWindowClass self).self).calls = 1 ∧
    (∀ window_class,
      OsCall.RegisterClass window_class ∈
          (GetWindowClass os (UnregisterWindowClass self).self).calls →
        window_class.lpszClassName = some kWindowClassName) ∧
    (GetWindowClass os (UnregisterWindowClass self).self).ret = kWindowClassName ∧
    (GetWindowClass os (UnregisterWindowClass self).self).ret = (GetWindowClass os self).ret := by
  refine ⟨rfl, rfl, countRegisterClass_unregistered os _ rfl, ?_, ?_, ?_⟩
  · intro window_class h
    simp [GetWindowClass, UnregisterWindowClass] at h
    subst h
    rfl
  · simp [GetWindowClass, UnregisterWindowClass]
  · cases self with
    | mk b => cases b <;> simp [GetWindowClass, UnregisterWindowClass]

/-! ## `EnableFullDpiSupportIfAvailable` -/

/-- C7: when `LoadLibraryA` fails, `EnableFullDpiSupportIfAvailable` makes no
further operating-system call; when it succeeds, the function obtained from
`GetProcAddress` is called, with the given `hwnd`, exactly when that address
is not null, and `FreeLibrary` is called exactly once, on the loaded module,
as the last call. -/
theorem EnableFullDpiSupportIfAvailable_calls (os : Os) (hwnd : HANDLE) :
    (os.LoadLibraryA "User32.dll" = 0 →
      EnableFullDpiSupportIfAvailable os hwnd = [OsCall.LoadLibraryA "User32.dll"]) ∧
    (os.LoadLibraryA "User32.dll" ≠ 0 →
      ((∃ proc hwnd1, OsCall.enable_non_client_dpi_scaling proc hwnd1 ∈
            EnableFullDpiSupportIfAvailable os hwnd) ↔
          os.GetProcAddress (os.LoadLibraryA "User32.dll") "EnableNonClientDpiScaling" ≠ 0) ∧
      (∀ proc hwnd1, OsCall.enable_non_client_dpi_scaling proc hwnd1 ∈
            EnableFullDpiSupportIfAvailable os hwnd →
          hwnd1 = hwnd ∧
          proc = os.GetProcAddress (os.LoadLibraryA "User32.dll") "EnableNonClientDpiScaling") ∧
      ((EnableFullDpiSupportIfAvailable os hwnd).filter
          (fun c => c matches OsCall.enable_non_client_dpi_scaling _ _)).length ≤ 1 ∧
      (EnableFullDpiSupportIfAvailable os hwnd).filter (fun c => c matches OsCall.FreeLibrary _) =
        [OsCall.FreeLibrary (os.LoadLibraryA "User32.dll")] ∧
      (EnableFullDpiSupportIfAvailable os hwnd).getLast? =
        some (OsCall.FreeLibrary (os.LoadLibraryA "User32.dll"))) := by
  constructor
  · intro h
    simp [EnableFullDpiSupportIfAvailable, h]
  · intro h
    by_cases hp :
      os.GetProcAddress (os.LoadLibraryA "User32.dll") "EnableNonClientDpiScaling" = 0
    · simp [EnableFullDpiSupportIfAvailable, h, hp, nullptr]
    · simp [EnableFullDpiSupportIfAvailable, h, hp, nullptr]

/-! ## The singleton -/

theorem GetInstance_of_ne (s : Statics) (h : s.instance_ ≠ nullptr) :
    GetInstance s = (s.instance_, s) := by
  simp [GetInstance, h]

theorem getInstanceTimes_of_ne (n : Nat) (s : Statics) (h : s.instance_ ≠ nullptr) :
    getInstanceTimes n s = (List.replicate n s.instance_, s) := by
  induction n with
  | zero => rfl
  | succ n ih => simp [getInstanceTimes, GetInstance_of_ne s h, ih, List.replicate_succ]

/-- C3: on statics whose `instance_` is null, the first `GetInstance` call
allocates exactly one registrar, stores its non-null address in `instance_`
and returns it; each of any number of later calls returns that same pointer
and changes nothing, so all pointers returned are equal. In any state whose
`instance_` is not null, a call returns `instance_` and allocates nothing. -/
theorem GetInstance_singleton (s : Statics) (n : Nat) (h : s.instance_ = nullptr) :
    (GetInstance s).1 ≠ nullptr ∧
    (GetInstance s).2.instance_ = (GetInstance s).1 ∧
    (GetInstance s).2.heap = s.heap ++ [WindowClassRegistrar.new] ∧
    (GetInstance s).2.heap.get? ((GetInstance s).1 - 1) = some WindowClassRegistrar.new ∧
    getInstanceTimes n (GetInstance s).2 =
      (List.replicate n (GetInstance s).1, (GetInstance s).2) ∧
    (getInstanceTimes (n + 1) s).1 = List.replicate (n + 1) (GetInstance s).1 ∧
    (∀ p ∈ (getInstanceTimes (n + 1) s).1, ∀ q ∈ (getInstanceTimes (n + 1) s).1, p = q) ∧
    (∀ t : Statics, t.instance_ ≠ nullptr → GetInstance t = (t.instance_, t)) := by
  have hne : (GetInstance s).2.instance_ ≠ nullptr := by
    simp [GetInstance, h, nullptr]
  have hfst : (GetInstance s).2.instance_ = (GetInstance s).1 := by
    simp [GetInstance, h]
  have hrest := getInstanceTimes_of_ne n (GetInstance s).2 hne
  rw [hfst] at hrest
  have hall : (getInstanceTimes (n + 1) s).1 = List.replicate (n + 1) (GetInstance s).1 := by
    simp [getInstanceTimes, hrest, List.replicate_succ]
  refine ⟨?_, hfst, ?_, ?_, hrest, hall, ?_, GetInstance_of_ne⟩
  · rw [← hfst]; exact hne
  · simp [GetInstance, h]
  · simp [GetInstance, h]
  · intro p hp q hq
    rw [hall] at hp hq
    rw [List.eq_of_mem_replicate hp, List.eq_of_mem_replicate hq]

/-- Witness for C3: four calls from the initial statics. -/
theorem GetInstance_singleton_witness :
    Statics.initial.instance_ = nullptr ∧
    (getInstanceTimes (3 + 1) Statics.initial).1 =
      List.replicate (3 + 1) (GetInstance Statics.initial).1 :=
  ⟨rfl, (GetInstance_singleton Statics.initial 3 rfl).2.2.2.2.2.1⟩

/-! ## The live-window counter -/

theorem wrapInt_of_int (x : Int) (h1 : INT_MIN ≤ x) (h2 : x ≤ INT_MAX) : wrapInt x = x := by
  unfold INT_MIN at h1
  unfold INT_MAX at h2
  unfold wrapInt
  omega

theorem wrapInt_wrapInt_add (x y : Int) : wrapInt (wrapInt x + y) = wrapInt (x + y) := by
  unfold wrapInt
  omega

theorem Destroy_count (this : HANDLE) (p : Process) :
    (Win32Window.Destroy this p).g_active_window_count = p.g_active_window_count := rfl

theorem runLifecycle_count (events : List Lifecycle) :
    ∀ (live : List HANDLE) (p : Process),
      p.g_active_window_count = live.length → live.length ≤ 2147483647 →
      onlyLiveDestroyed live events = true → liveWithinInt live events = true →
      (runLifecycle p events).g_active_window_count = (liveAfter live events).length ∧
      (runLifecycle p events).g_active_window_count =
        p.g_active_window_count + constructions events - destructions events := by
  induction events with
  | nil =>
    intro live p hp _ _ _
    simp [runLifecycle, liveAfter, constructions, destructions, hp]
  | cons ev es ih =>
    intro live p hp hmax hlive hint
    cases ev with
    | construct this =>
      simp only [onlyLiveDestroyed] at hlive
      simp only [liveWithinInt, Bool.and_eq_true, decide_eq_true_eq] at hint
      have hlen : live.length < 2147483647 := hint.1
      have hstep : (Win32Window.constructor p).g_active_window_count =
          p.g_active_window_count + 1 := by
        simp only [Win32Window.constructor]
        apply wrapInt_of_int <;> simp only [INT_MIN, INT_MAX] <;> omega
      have := ih (this :: live) (Win32Window.constructor p)
        (by rw [hstep, hp]; simp) (by simp only [List.length_cons]; omega) hlive hint.2
      simp only [runLifecycle, List.foldl_cons, Lifecycle.exec, liveAfter, constructions,
        destructions] at this ⊢
      rw [hstep] at this
      refine ⟨this.1, ?_⟩
      rw [this.2]; push_cast; ring
    | destroy this =>
      simp only [onlyLiveDestroyed, Bool.and_eq_true] at hlive
      simp only [liveWithinInt] at hint
      have hmem : this ∈ live := by simpa using hlive.1
      have hpos : 0 < live.length := List.length_pos_of_mem hmem
      have hlen : (live.erase this).length = live.length - 1 := List.length_erase_of_mem hmem
      have hstep : (Win32Window.destructor this p).g_active_window_count =
          p.g_active_window_count - 1 := by
        simp only [Win32Window.destructor, Destroy_count]
        apply wrapInt_of_int <;> simp only [INT_MIN, INT_MAX] <;> omega
      have := ih (live.erase this) (Win32Window.destructor this p)
        (by rw [hstep, hp, hlen]; omega) (by omega) hlive.2 hint
      simp only [runLifecycle, List.foldl_cons, Lifecycle.exec, liveAfter, constructions,
        destructions] at this ⊢
      rw [hstep] at this
      refine ⟨this.1, ?_⟩
      rw [this.2]; push_cast; ring

theorem constructions_map_construct (l : List Nat) :
    constructions (l.map (fun i => Lifecycle.construct (i + 1))) = l.length := by
  induction l with
  | nil => rfl
  | cons a l ih => simp [constructions, ih]

theorem destructions_map_construct (l : List Nat) :
    destructions (l.map (fun i => Lifecycle.construct (i + 1))) = 0 := by
  induction l with
  | nil => rfl
  | cons a l ih => simp [destructions, ih]

theorem onlyLiveDestroyed_map_construct (l : List Nat) :
    ∀ live, onlyLiveDestroyed live (l.map (fun i => Lifecycle.construct (i + 1))) = true := by
  induction l with
  | nil => intro live; rfl
  | cons a l ih => intro live; simp [onlyLiveDestroyed, ih]

theorem runLifecycle_map_construct (l : List Nat) :
    ∀ p : Process, wrapInt p.g_active_window_count = p.g_active_window_count →
      (runLifecycle p (l.map (fun i => Lifecycle.construct (i + 1)))).g_active_window_count =
        wrapInt (p.g_active_window_count + l.length) := by
  induction l with
  | nil =>
    intro p hp
    simp only [runLifecycle, List.map_nil, List.foldl_nil, List.length_nil, Nat.cast_zero,
      add_zero, hp]
  | cons a l ih =>
    intro p _
    have := ih (Win32Window.constructor p)
      (by simp only [Win32Window.constructor]; unfold wrapInt; omega)
    simp only [runLifecycle, List.map_cons, List.foldl_cons, Lifecycle.exec] at this ⊢
    rw [this]
    simp only [Win32Window.constructor, List.length_cons, Nat.cast_add, Nat.cast_one]
    rw [wrapInt_wrapInt_add]
    congr 1
    ring

/-- C4 (amended): the counter starts at `0`; a constructor adds exactly 1 and
a destructor subtracts exactly 1 as long as the result is an `int`; and after
every sequence of constructions and destructions, starting with no object, in
which only live objects are destroyed and at most `INT_MAX` objects are live
at any time, the counter equals the number of objects that exist, which is
the number of constructions minus the number of destructions, and is not
negative. -/
theorem g_active_window_count_counts_live (windows : List HANDLE) (events : List Lifecycle)
    (hlive : onlyLiveDestroyed [] events = true)
    (hint : liveWithinInt [] events = true) :
    (Process.initial windows).g_active_window_count = 0 ∧
    (∀ p : Process, INT_MIN ≤ p.g_active_window_count → p.g_active_window_count < INT_MAX →
      (Win32Window.constructor p).g_active_window_count = p.g_active_window_count + 1) ∧
    (∀ (this : HANDLE) (p : Process),
      INT_MIN < p.g_active_window_count → p.g_active_window_count ≤ INT_MAX →
      (Win32Window.destructor this p).g_active_window_count = p.g_active_window_count - 1) ∧
    (runLifecycle (Process.initial windows) events).g_active_window_count =
      (liveAfter [] events).length ∧
    (runLifecycle (Process.initial windows) events).g_active_window_count =
      (constructions events : Int) - (destructions events : Int) ∧
    0 ≤ (runLifecycle (Process.initial windows) events).g_active_window_count := by
  have h := runLifecycle_count events [] (Process.initial windows) rfl (by simp) hlive hint
  refine ⟨rfl, ?_, ?_, h.1, ?_, ?_⟩
  · intro p h0 h1
    simp only [Win32Window.constructor]
    apply wrapInt_of_int <;> simp only [INT_MIN, INT_MAX] at * <;> omega
  · intro this p h0 h1
    simp only [Win32Window.destructor, Destroy_count]
    apply wrapInt_of_int <;> simp only [INT_MIN, INT_MAX] at * <;> omega
  · rw [h.2]; simp [Process.initial]
  · rw [h.1]; exact Int.natCast_nonneg _

/-- Witness for C4: two windows are made, the first is destroyed, a third is
made at the freed address. -/
theorem g_active_window_count_counts_live_witness :
    onlyLiveDestroyed [] [Lifecycle.construct 8, Lifecycle.construct 16, Lifecycle.destroy 8,
      Lifecycle.construct 8] = true ∧
    liveWithinInt [] [Lifecycle.construct 8, Lifecycle.construct 16, Lifecycle.destroy 8,
      Lifecycle.construct 8] = true ∧
    (runLifecycle (Process.initial [8, 16])
      [Lifecycle.construct 8, Lifecycle.construct 16, Lifecycle.destroy 8,
        Lifecycle.construct 8]).g_active_window_count = (3 : Int) - (1 : Int) :=
  ⟨by decide, by decide,
    (g_active_window_count_counts_live [8, 16]
      [Lifecycle.construct 8, Lifecycle.construct 16, Lifecycle.destroy 8,
        Lifecycle.construct 8] (by decide) (by decide)).2.2.2.2.1⟩

/-- C4 as stated fails once `INT_MAX + 1 = 2^31` objects are live: after the
construction of `2^31` objects and no destruction, so that only live objects
were destroyed, the 32-bit counter has wrapped to `INT_MIN`; it is negative
and differs from the number of constructions minus that of destructions. The
last constructor ran at `INT_MAX` and did not add 1. -/
theorem g_active_window_count_overflow_counterexample :
    onlyLiveDestroyed [] (constructMany 2147483648) = true ∧
    constructions (constructMany 2147483648) = 2147483648 ∧
    destructions (constructMany 2147483648) = 0 ∧
    (runLifecycle (Process.initial []) (constructMany 2147483647)).g_active_window_count =
      INT_MAX ∧
    (Win32Window.constructor
      (runLifecycle (Process.initial []) (constructMany 2147483647))).g_active_window_count =
      INT_MIN ∧
    (runLifecycle (Process.initial []) (constructMany 2147483648)).g_active_window_count =
      -2147483648 ∧
    (runLifecycle (Process.initial []) (constructMany 2147483648)).g_active_window_count < 0 ∧
    (runLifecycle (Process.initial []) (constructMany 2147483648)).g_active_window_count ≠
      ((constructions (constructMany 2147483648) : Nat) : Int) -
        ((destructions (constructMany 2147483648) : Nat) : Int) := by
  have hrun : ∀ n : Nat,
      (runLifecycle (Process.initial []) (constructMany n)).g_active_window_count =
        wrapInt (n : Int) := by
    intro n
    have := runLifecycle_map_construct (List.range n) (Process.initial []) rfl
    rw [List.length_range] at this
    simpa [constructMany, Process.initial] using this
  have hc : constructions (constructMany 2147483648) = 2147483648 := by
    unfold constructMany
    rw [constructions_map_construct, List.length_range]
  have hd : destructions (constructMany 2147483648) = 0 := by
    unfold constructMany
    rw [destructions_map_construct]
  have hmax : (runLifecycle (Process.initial []) (constructMany 2147483647)).g_active_window_count
      = INT_MAX := by
    rw [hrun]; decide
  have hw : (runLifecycle (Process.initial []) (constructMany 2147483648)).g_active_window_count
      = -2147483648 := by
    rw [hrun]; decide
  refine ⟨?_, hc, hd, hmax, ?_, hw, ?_, ?_⟩
  · unfold constructMany
    exact onlyLiveDestroyed_map_construct _ _
  · simp only [Win32Window.constructor, hmax]
    decide
  · rw [hw]; decide
  · rw [hw, hc, hd]; decide

/-! ## Binary digits and rounding -/

theorem bitLengthAux_spec (fuel : Nat) :
    ∀ a, a ≤ fuel →
      a < 2 ^ bitLengthAux fuel a ∧ (a ≠ 0 → 2 ^ (bitLengthAux fuel a - 1) ≤ a) := by
  induction fuel with
  | zero =>
    intro a ha
    have : a = 0 := by omega
    subst this
    simp [bitLengthAux]
  | succ fuel ih =>
    intro a ha
    by_cases h0 : a = 0
    · subst h0
      simp [bitLengthAux]
    · have hhalf : a / 2 ≤ fuel := by omega
      obtain ⟨h1, h2⟩ := ih (a / 2) hhalf
      simp only [bitLengthAux, h0, if_false, Nat.add_sub_cancel]
      constructor
      · rw [pow_succ]; omega
      · intro _
        by_cases hq : a / 2 = 0
        · have hb : bitLengthAux fuel (a / 2) = 0 := by
            rw [hq]; cases fuel <;> simp [bitLengthAux]
          rw [hb]; simp; omega
        · have h3 := h2 hq
          obtain ⟨b, hb⟩ : ∃ b, bitLengthAux fuel (a / 2) = b + 1 := by
            cases hc : bitLengthAux fuel (a / 2) with
            | zero => rw [hc] at h1; simp at h1; omega
            | succ b => exact ⟨b, rfl⟩
          rw [hb] at h3 ⊢
          simp only [Nat.add_sub_cancel] at h3
          rw [pow_succ]; omega

theorem lt_two_pow_bitLength (a : Nat) : a < 2 ^ bitLength a :=
  (bitLengthAux_spec a a (Nat.le_refl a)).1

theorem two_pow_bitLength_le (a : Nat) (h : a ≠ 0) : 2 ^ (bitLength a - 1) ≤ a :=
  (bitLengthAux_spec a a (Nat.le_refl a)).2 h

theorem bitLength_zero : bitLength 0 = 0 := rfl

theorem bitLength_le_of_lt (a n : Nat) (h : a < 2 ^ n) : bitLength a ≤ n := by
  by_cases h0 : a = 0
  · subst h0; simp [bitLength_zero]
  · have h1 := two_pow_bitLength_le a h0
    have h2 : 2 ^ (bitLength a - 1) < 2 ^ n := lt_of_le_of_lt h1 h
    have h3 := (Nat.pow_lt_pow_iff_right (by norm_num : 1 < 2)).1 h2
    omega

theorem bitLength_pos (a : Nat) (h : a ≠ 0) : 0 < bitLength a := by
  have := lt_two_pow_bitLength a
  by_contra hc
  have h0 : bitLength a = 0 := by omega
  rw [h0] at this
  simp at this
  exact h this

theorem roundNearestEven_zero_right (a : Nat) : roundNearestEven a 0 = a := by
  simp [roundNearestEven, Nat.mod_one]

theorem roundNearestEven_zero_left (k : Nat) : roundNearestEven 0 k = 0 := by
  simp [roundNearestEven]

theorem roundNearestEven_le (a k M : Nat) (h : a ≤ M * 2 ^ k) : roundNearestEven a k ≤ M := by
  have hpos : 0 < 2 ^ k := Nat.pow_pos (by norm_num)
  have hq : a / 2 ^ k ≤ M := by
    calc a / 2 ^ k ≤ (M * 2 ^ k) / 2 ^ k := Nat.div_le_div_right h
      _ = M := Nat.mul_div_cancel _ hpos
  have hdm := Nat.div_add_mod a (2 ^ k)
  have hlt := Nat.mod_lt a hpos
  by_cases hM : a / 2 ^ k = M
  · have hr : a % 2 ^ k = 0 := by
      rw [hM, Nat.mul_comm] at hdm
      omega
    simp only [roundNearestEven, hr]
    simp [hpos, hM]
  · have hq1 : a / 2 ^ k + 1 ≤ M := by omega
    unfold roundNearestEven
    simp only
    split_ifs <;> omega

/-! ## Truncation and the value of a `double` -/

theorem two_zpow_pos (e : Int) : (0 : ℚ) < (2 : ℚ) ^ e :=
  zpow_pos (by norm_num) e

theorem truncNat_eq_floor (m : Nat) (e : Int) :
    ((truncNat m e : Nat) : Int) = ⌊(m : ℚ) * (2 : ℚ) ^ e⌋ := by
  unfold truncNat
  by_cases he : 0 ≤ e
  · obtain ⟨n, rfl⟩ := Int.eq_ofNat_of_zero_le he
    simp only [he, if_true, Int.toNat_ofNat, zpow_natCast]
    have : (m : ℚ) * (2 : ℚ) ^ n = ((m * 2 ^ n : Nat) : ℚ) := by push_cast; ring
    rw [this, Int.floor_natCast]
  · obtain ⟨n, hn⟩ : ∃ n : Nat, e = -(n : Int) := ⟨(-e).toNat, by omega⟩
    subst hn
    simp only [he, if_false, neg_neg, Int.toNat_ofNat, zpow_neg, zpow_natCast]
    have : (m : ℚ) * ((2 : ℚ) ^ n)⁻¹ = (m : ℚ) / ((2 ^ n : Nat) : ℚ) := by
      push_cast; rw [div_eq_mul_inv]
    rw [this, Rat.floor_natCast_div_natCast]
    simp

theorem integerPart_signed (sign : Bool) (y : ℚ) (hy : 0 ≤ y) :
    integerPart ((if sign then -1 else 1) * y) = if sign then -⌊y⌋ else ⌊y⌋ := by
  cases sign with
  | false => simp [integerPart, hy]
  | true =>
    simp only [if_true, neg_mul, one_mul, integerPart]
    by_cases h0 : y = 0
    · subst h0; simp
    · have : ¬ (0 ≤ -y) := by
        intro h
        exact h0 (le_antisymm (by linarith) hy)
      rw [if_neg this, Int.ceil_neg]

theorem static_cast_int_finite (sign : Bool) (m : Nat) (e : Int) (x : ℚ)
    (hx : (Double.finite sign m e).toRat = some x)
    (hlo : INT_MIN ≤ integerPart x) (hhi : integerPart x ≤ INT_MAX) :
    static_cast_int (Double.finite sign m e) = some (integerPart x) := by
  simp only [Double.toRat, Option.some.injEq] at hx
  have hy : (0 : ℚ) ≤ (m : ℚ) * (2 : ℚ) ^ e :=
    mul_nonneg (Nat.cast_nonneg m) (le_of_lt (two_zpow_pos e))
  have hv : integerPart x = if sign then -((truncNat m e : Nat) : Int) else (truncNat m e : Nat) := by
    rw [← hx, mul_assoc, integerPart_signed sign _ hy, truncNat_eq_floor]
  simp only [static_cast_int]
  rw [← hv]
  simp [hlo, hhi]

theorem bitLength_add_le (a : Nat) (e c : Int) (ha : a ≠ 0)
    (h : (a : ℚ) * (2 : ℚ) ^ e ≤ (2 : ℚ) ^ c) : (bitLength a : Int) + e ≤ c + 1 := by
  have hb := two_pow_bitLength_le a ha
  have hpos := bitLength_pos a ha
  have h1 : ((2 : ℚ) ^ ((bitLength a - 1 : Nat) : Int)) ≤ (a : ℚ) := by
    rw [zpow_natCast]
    exact_mod_cast hb
  have h2 : (2 : ℚ) ^ (((bitLength a - 1 : Nat) : Int) + e) ≤ (2 : ℚ) ^ c := by
    rw [zpow_add₀ (by norm_num : (2 : ℚ) ≠ 0)]
    exact le_trans (mul_le_mul_of_nonneg_right h1 (le_of_lt (two_zpow_pos e))) h
  have h3 := (zpow_le_zpow_iff_right₀ (by norm_num : (1 : ℚ) < 2)).1 h2
  omega

/-- Rounding never carries a magnitude across an integer bound of at most
`2^31`: such a bound is itself a multiple of the rounding unit. -/
theorem roundNearestEven_mag_le (a : Nat) (e : Int) (N : Nat) (hN : N ≤ 2 ^ 31)
    (h : (a : ℚ) * (2 : ℚ) ^ e ≤ (N : ℚ)) :
    ((roundNearestEven a (max ((bitLength a : Int) - 53) (-1074 - e)).toNat : Nat) : ℚ) *
      (2 : ℚ) ^ (e + ((max ((bitLength a : Int) - 53) (-1074 - e)).toNat : Int)) ≤ (N : ℚ) := by
  generalize hk : (max ((bitLength a : Int) - 53) (-1074 - e)).toNat = k
  by_cases hk0 : k = 0
  · subst hk0
    simpa [roundNearestEven_zero_right] using h
  · have hmax : max ((bitLength a : Int) - 53) (-1074 - e) = (k : Int) := by omega
    have hE : e + (k : Int) ≤ 0 := by
      by_cases hc : (-1074 - e) ≤ (bitLength a : Int) - 53
      · have hb : (bitLength a : Int) - 53 = k := by rw [max_eq_left hc] at hmax; exact hmax
        have ha : a ≠ 0 := by
          intro h0
          rw [h0, bitLength_zero] at hb
          omega
        have h31 : (a : ℚ) * (2 : ℚ) ^ e ≤ (2 : ℚ) ^ (31 : Int) := by
          refine le_trans h ?_
          have : ((N : ℚ)) ≤ ((2 ^ 31 : Nat) : ℚ) := by exact_mod_cast hN
          refine le_trans this ?_
          norm_num
        have := bitLength_add_le a e 31 ha h31
        omega
      · have hb : (-1074 - e) = k := by
          rw [max_eq_right (by omega)] at hmax; exact hmax
        omega
    obtain ⟨n, hn⟩ : ∃ n : Nat, e + (k : Int) = -(n : Int) := ⟨(-(e + k)).toNat, by omega⟩
    have he : e = -((n + k : Nat) : Int) := by push_cast; omega
    have h2pos : (0 : ℚ) < ((2 ^ (n + k) : Nat) : ℚ) := by positivity
    have hnat : a ≤ (N * 2 ^ n) * 2 ^ k := by
      rw [he, zpow_neg, zpow_natCast] at h
      have h1 : (a : ℚ) ≤ (N : ℚ) * (2 : ℚ) ^ (n + k) := by
        have h0 : (a : ℚ) / (2 : ℚ) ^ (n + k) ≤ (N : ℚ) := by
          rw [div_eq_mul_inv]; exact h
        exact (div_le_iff₀ (by positivity : (0 : ℚ) < (2 : ℚ) ^ (n + k))).1 h0
      have h2 : ((a : Nat) : ℚ) ≤ ((N * 2 ^ n * 2 ^ k : Nat) : ℚ) := by
        push_cast
        rw [mul_assoc, ← pow_add]
        exact h1
      exact_mod_cast h2
    have hq := roundNearestEven_le a k (N * 2 ^ n) hnat
    rw [hn, zpow_neg, zpow_natCast, ← div_eq_mul_inv, div_le_iff₀ (by positivity)]
    exact_mod_cast hq

theorem round_of_mag_le (sign : Bool) (a : Nat) (e : Int) (N : Nat) (hN : N ≤ 2 ^ 31)
    (h : (a : ℚ) * (2 : ℚ) ^ e ≤ (N : ℚ)) :
    ∃ (m1 : Nat) (e1 : Int), Double.round sign a e = Double.finite sign m1 e1 ∧
      (m1 : ℚ) * (2 : ℚ) ^ e1 ≤ (N : ℚ) ∧
      (m1 : ℚ) * (2 : ℚ) ^ e1 =
        ((roundNearestEven a (max ((bitLength a : Int) - 53) (-1074 - e)).toNat : Nat) : ℚ) *
          (2 : ℚ) ^ (e + ((max ((bitLength a : Int) - 53) (-1074 - e)).toNat : Int)) := by
  have hq := roundNearestEven_mag_le a e N hN h
  unfold Double.round
  simp only
  generalize (max ((bitLength a : Int) - 53) (-1074 - e)).toNat = k at hq ⊢
  generalize roundNearestEven a k = q at hq ⊢
  by_cases hq0 : q = 0
  · exact ⟨0, 0, by rw [if_pos hq0], by simp, by simp [hq0]⟩
  · have h31 : (q : ℚ) * (2 : ℚ) ^ (e + (k : Int)) ≤ (2 : ℚ) ^ (31 : Int) := by
      refine le_trans hq ?_
      have : ((N : ℚ)) ≤ ((2 ^ 31 : Nat) : ℚ) := by exact_mod_cast hN
      refine le_trans this ?_
      norm_num
    have hb := bitLength_add_le q (e + k) 31 hq0 h31
    have hno : ¬ ((bitLength q : Int) + (e + (k : Int)) > 1024) := by omega
    by_cases hc : q = 2 ^ 53
    · have hval : ((2 ^ 52 : Nat) : ℚ) * (2 : ℚ) ^ (e + (k : Int) + 1) =
          (q : ℚ) * (2 : ℚ) ^ (e + (k : Int)) := by
        rw [hc, zpow_add₀ (by norm_num : (2 : ℚ) ≠ 0)]
        push_cast; ring
      refine ⟨2 ^ 52, e + k + 1, by rw [if_neg hq0, if_neg hno, if_pos hc], ?_, hval⟩
      rw [hval]; exact hq
    · exact ⟨q, e + k, by rw [if_neg hq0, if_neg hno, if_neg hc], hq, rfl⟩

theorem intCast_eq_sign_mul_natAbs (i : Int) :
    (i : ℚ) = (if decide (i < 0) = true then -1 else 1) * ((i.natAbs : Nat) : ℚ) := by
  by_cases h : i < 0
  · simp only [h, decide_True, if_true]
    have h1 : ((i.natAbs : Nat) : Int) = -i := by omega
    have h2 : (((i.natAbs : Nat) : Int) : ℚ) = ((-i : Int) : ℚ) := by rw [h1]
    rw [Int.cast_natCast, Int.cast_neg] at h2
    rw [h2]; ring
  · simp only [h, decide_False, Bool.false_eq_true, if_false, one_mul]
    have h1 : ((i.natAbs : Nat) : Int) = i := by omega
    have h2 : (((i.natAbs : Nat) : Int) : ℚ) = (i : ℚ) := by rw [h1]
    rw [Int.cast_natCast] at h2
    rw [h2]

theorem sign_mul_sign (s1 s2 : Bool) :
    ((if s1 = true then -1 else 1 : ℚ)) * (if s2 = true then -1 else 1) =
      if xor s1 s2 = true then -1 else 1 := by
  cases s1 <;> cases s2 <;> simp


/-! ## `Double.round` yields a nearest `double` -/

theorem roundNearestEven_nearest (a k z : Nat) :
    |(((roundNearestEven a k * 2 ^ k : Nat) : Int)) - (a : Int)| ≤
      |(((z * 2 ^ k : Nat) : Int)) - (a : Int)| := by
  have hpos : 0 < 2 ^ k := Nat.pow_pos (by norm_num)
  have hdm := Nat.div_add_mod a (2 ^ k)
  have hlt := Nat.mod_lt a hpos
  generalize hD : 2 ^ k = D at *
  generalize hq0 : a / D = q0 at *
  generalize hr : a % D = r at *
  have hz : z * D ≤ q0 * D ∨ q0 * D + D ≤ z * D := by
    rcases Nat.lt_or_ge q0 z with h | h
    · right
      have : (q0 + 1) * D ≤ z * D := Nat.mul_le_mul_right D h
      rw [Nat.add_mul, Nat.one_mul] at this
      exact this
    · left
      exact Nat.mul_le_mul_right D h
  have hq : (roundNearestEven a k * D = q0 * D ∧ 2 * r ≤ D) ∨
      (roundNearestEven a k * D = q0 * D + D ∧ D ≤ 2 * r) := by
    unfold roundNearestEven
    simp only [hD, hq0, hr]
    split_ifs with h1 h2 h3
    · left; exact ⟨rfl, by omega⟩
    · left; exact ⟨rfl, by omega⟩
    · right; exact ⟨by rw [Nat.add_mul, Nat.one_mul], by omega⟩
    · right; exact ⟨by rw [Nat.add_mul, Nat.one_mul], by omega⟩
  rw [Nat.mul_comm D q0] at hdm
  generalize q0 * D = X at *
  generalize z * D = Z at *
  generalize roundNearestEven a k * D = Q at *
  rw [abs_le]
  rcases abs_cases ((Z : Int) - (a : Int)) with ⟨h, _⟩ | ⟨h, _⟩ <;> rw [h] <;>
    constructor <;> omega

theorem roundNearestEven_lt (a k : Nat) (h : bitLength a ≤ 53 + k) :
    roundNearestEven a k ≤ 2 ^ 53 := by
  apply roundNearestEven_le
  have h1 := lt_two_pow_bitLength a
  have h2 : 2 ^ bitLength a ≤ 2 ^ (53 + k) := Nat.pow_le_pow_right (by norm_num) h
  rw [pow_add] at h2
  omega

theorem bitLength_two_pow_52 : bitLength (2 ^ 52) = 53 := by decide

theorem bitLength_two_pow_53 : bitLength (2 ^ 53) = 54 := by decide

theorem Double.round_valid (sign : Bool) (a : Nat) (e : Int) : (Double.round sign a e).Valid := by
  unfold Double.round
  simp only
  have hk : bitLength a ≤ 53 + (max ((bitLength a : Int) - 53) (-1074 - e)).toNat := by omega
  have hE : -1074 ≤ e + ((max ((bitLength a : Int) - 53) (-1074 - e)).toNat : Int) := by omega
  have hq := roundNearestEven_lt a _ hk
  generalize (max ((bitLength a : Int) - 53) (-1074 - e)).toNat = k at hq hE ⊢
  generalize roundNearestEven a k = q at hq ⊢
  by_cases hq0 : q = 0
  · rw [if_pos hq0]
    simp [Double.Valid, bitLength_zero]
  · rw [if_neg hq0]
    by_cases hov : (bitLength q : Int) + (e + (k : Int)) > 1024
    · rw [if_pos hov]; trivial
    · rw [if_neg hov]
      by_cases hc : q = 2 ^ 53
      · rw [if_pos hc]
        rw [hc, bitLength_two_pow_53] at hov
        simp only [Double.Valid, bitLength_two_pow_52]
        refine ⟨by norm_num, by omega, by push_cast at hov ⊢; omega⟩
      · rw [if_neg hc]
        simp only [Double.Valid]
        exact ⟨by omega, hE, by omega⟩

theorem roundNearestEven_nearest_rat (a k z : Nat) :
    |(roundNearestEven a k : ℚ) * (2 : ℚ) ^ k - (a : ℚ)| ≤ |(z : ℚ) * (2 : ℚ) ^ k - (a : ℚ)| := by
  have h := roundNearestEven_nearest a k z
  have h1 : ((|(((roundNearestEven a k * 2 ^ k : Nat) : Int)) - (a : Int)| : Int) : ℚ) ≤
      ((|(((z * 2 ^ k : Nat) : Int)) - (a : Int)| : Int) : ℚ) := by exact_mod_cast h
  simpa using h1

/-- The magnitude produced by rounding is at least as close to the exact
magnitude as the magnitude of any finite `double`. -/
theorem roundNearestEven_nearest_double (a : Nat) (e : Int) (m2 : Nat) (e2 : Int)
    (hm2 : m2 < 2 ^ 53) (he2 : -1074 ≤ e2) :
    |((roundNearestEven a (max ((bitLength a : Int) - 53) (-1074 - e)).toNat : Nat) : ℚ) *
        (2 : ℚ) ^ (e + ((max ((bitLength a : Int) - 53) (-1074 - e)).toNat : Int)) -
      (a : ℚ) * (2 : ℚ) ^ e| ≤ |(m2 : ℚ) * (2 : ℚ) ^ e2 - (a : ℚ) * (2 : ℚ) ^ e| := by
  generalize hk : (max ((bitLength a : Int) - 53) (-1074 - e)).toNat = k
  have h2 : (2 : ℚ) ≠ 0 := by norm_num
  have hu : (0 : ℚ) < (2 : ℚ) ^ e := two_zpow_pos e
  by_cases hk0 : k = 0
  · subst hk0
    simp [roundNearestEven_zero_right]
  · have hsplit : ∀ z : ℚ, z * (2 : ℚ) ^ (e + (k : Int)) - (a : ℚ) * (2 : ℚ) ^ e =
        (z * (2 : ℚ) ^ k - (a : ℚ)) * (2 : ℚ) ^ e := by
      intro z
      rw [zpow_add₀ h2, zpow_natCast]; ring
    rw [hsplit, abs_mul, abs_of_pos hu]
    by_cases hcase : e + (k : Int) ≤ e2
    · obtain ⟨j, hj⟩ : ∃ j : Nat, e2 = e + (k : Int) + (j : Int) :=
        ⟨(e2 - (e + k)).toNat, by omega⟩
      have hrw : (m2 : ℚ) * (2 : ℚ) ^ e2 - (a : ℚ) * (2 : ℚ) ^ e =
          (((m2 * 2 ^ j : Nat) : ℚ) * (2 : ℚ) ^ k - (a : ℚ)) * (2 : ℚ) ^ e := by
        rw [hj, zpow_add₀ h2, zpow_add₀ h2, zpow_natCast, zpow_natCast]
        push_cast; ring
      rw [hrw, abs_mul, abs_of_pos hu]
      exact mul_le_mul_of_nonneg_right (roundNearestEven_nearest_rat a k _) (le_of_lt hu)
    · have hb : (bitLength a : Int) - 53 = k := by omega
      have ha : a ≠ 0 := by
        intro h0
        rw [h0, bitLength_zero] at hb
        omega
      have hlow := two_pow_bitLength_le a ha
      have hbk : bitLength a - 1 = 52 + k := by omega
      rw [hbk] at hlow
      have hlowq : ((2 : ℚ) ^ 52) * (2 : ℚ) ^ k ≤ (a : ℚ) := by
        rw [← pow_add]
        exact_mod_cast hlow
      have hY : (m2 : ℚ) * (2 : ℚ) ^ e2 ≤ ((2 : ℚ) ^ 52 * (2 : ℚ) ^ k) * (2 : ℚ) ^ e := by
        have hm : (m2 : ℚ) ≤ (2 : ℚ) ^ 53 := by exact_mod_cast le_of_lt hm2
        have hpow : (2 : ℚ) ^ e2 ≤ (2 : ℚ) ^ (e + (k : Int) - 1) :=
          zpow_le_zpow_right₀ (by norm_num) (by omega)
        have hprod : (m2 : ℚ) * (2 : ℚ) ^ e2 ≤ (2 : ℚ) ^ 53 * (2 : ℚ) ^ (e + (k : Int) - 1) :=
          mul_le_mul hm hpow (le_of_lt (two_zpow_pos e2)) (by positivity)
        have heq : (2 : ℚ) ^ 53 * (2 : ℚ) ^ (e + (k : Int) - 1) =
            ((2 : ℚ) ^ 52 * (2 : ℚ) ^ k) * (2 : ℚ) ^ e := by
          rw [sub_eq_add_neg, zpow_add₀ h2, zpow_add₀ h2, zpow_natCast]
          norm_num
          ring
        rw [heq] at hprod
        exact hprod
      have hnear := roundNearestEven_nearest_rat a k (2 ^ 52)
      have hz : |((2 ^ 52 : Nat) : ℚ) * (2 : ℚ) ^ k - (a : ℚ)| =
          (a : ℚ) - (2 : ℚ) ^ 52 * (2 : ℚ) ^ k := by
        push_cast
        rw [abs_of_nonpos (by linarith)]; ring
      rw [hz] at hnear
      have hrhs : (a : ℚ) * (2 : ℚ) ^ e - (m2 : ℚ) * (2 : ℚ) ^ e2 ≤
          |(m2 : ℚ) * (2 : ℚ) ^ e2 - (a : ℚ) * (2 : ℚ) ^ e| := by
        rw [abs_sub_comm]; exact le_abs_self _
      refine le_trans (mul_le_mul_of_nonneg_right hnear (le_of_lt hu)) ?_
      refine le_trans ?_ hrhs
      nlinarith [hY, hu]
theorem Scale_finite (source : Int) (sign : Bool) (mant : Nat) (exp : Int)
    (hlo : (INT_MIN : ℚ) ≤ (source : ℚ) * ((if sign then -1 else 1) * (mant : ℚ) * (2 : ℚ) ^ exp))
    (hhi : (source : ℚ) * ((if sign then -1 else 1) * (mant : ℚ) * (2 : ℚ) ^ exp) ≤ (INT_MAX : ℚ)) :
    ∃ x : ℚ, (Double.mul (Double.ofInt source) (Double.finite sign mant exp)).toRat = some x ∧
      (∀ d : Double, d.Valid → ∀ y : ℚ, d.toRat = some y →
        |x - (source : ℚ) * ((if sign then -1 else 1) * (mant : ℚ) * (2 : ℚ) ^ exp)| ≤
          |y - (source : ℚ) * ((if sign then -1 else 1) * (mant : ℚ) * (2 : ℚ) ^ exp)|) ∧
      Scale source (Double.finite sign mant exp) = some (integerPart x) := by
  have hp : (source : ℚ) * ((if sign then -1 else 1) * (mant : ℚ) * (2 : ℚ) ^ exp) =
      (if xor (decide (source < 0)) sign = true then -1 else 1) *
        (((source.natAbs * mant : Nat) : ℚ) * (2 : ℚ) ^ exp) := by
    rw [← sign_mul_sign, intCast_eq_sign_mul_natAbs source]
    push_cast; ring
  rw [hp] at hlo hhi ⊢
  have hmul : Double.mul (Double.ofInt source) (Double.finite sign mant exp) =
      Double.round (xor (decide (source < 0)) sign) (source.natAbs * mant) exp := by
    simp [Double.mul, Double.ofInt]
  generalize xor (decide (source < 0)) sign = sg at hlo hhi hmul ⊢
  generalize source.natAbs * mant = a at hlo hhi hmul ⊢
  have hy0 : (0 : ℚ) ≤ (a : ℚ) * (2 : ℚ) ^ exp :=
    mul_nonneg (Nat.cast_nonneg a) (le_of_lt (two_zpow_pos exp))
  have hbound : ∃ N : Nat, N ≤ 2 ^ 31 ∧ (a : ℚ) * (2 : ℚ) ^ exp ≤ (N : ℚ) ∧
      (sg = false → N ≤ 2 ^ 31 - 1) := by
    cases sg with
    | false =>
      refine ⟨2 ^ 31 - 1, by norm_num, ?_, fun _ => le_refl _⟩
      simp only [Bool.false_eq_true, if_false, one_mul, INT_MAX] at hhi
      refine le_trans hhi ?_
      norm_num
    | true =>
      refine ⟨2 ^ 31, le_refl _, ?_, fun h => by simp at h⟩
      simp only [if_true, INT_MIN] at hlo
      have : (a : ℚ) * (2 : ℚ) ^ exp ≤ 2147483648 := by
        have h1 : ((-2147483648 : Int) : ℚ) = -2147483648 := by norm_num
        rw [h1] at hlo
        linarith
      refine le_trans this ?_
      norm_num
  obtain ⟨N, hN, hle, hNpos⟩ := hbound
  obtain ⟨m1, e1, hround, hmag, hval⟩ := round_of_mag_le sg a exp N hN hle
  have hy1 : (0 : ℚ) ≤ (m1 : ℚ) * (2 : ℚ) ^ e1 :=
    mul_nonneg (Nat.cast_nonneg m1) (le_of_lt (two_zpow_pos e1))
  have hfl0 : 0 ≤ ⌊(m1 : ℚ) * (2 : ℚ) ^ e1⌋ := Int.floor_nonneg.2 hy1
  have hflN : ⌊(m1 : ℚ) * (2 : ℚ) ^ e1⌋ ≤ (N : Int) := by
    have := Int.floor_mono hmag
    rwa [Int.floor_natCast] at this
  refine ⟨(if sg then -1 else 1) * (m1 : ℚ) * (2 : ℚ) ^ e1, ?_, ?_, ?_⟩
  · rw [hmul, hround]; rfl
  · intro d hd y hy
    cases d with
    | inf s2 => simp [Double.toRat] at hy
    | nan => simp [Double.toRat] at hy
    | finite s2 m2 e2 =>
      simp only [Double.toRat, Option.some.injEq] at hy
      simp only [Double.Valid] at hd
      have hnear := roundNearestEven_nearest_double a exp m2 e2 hd.1 hd.2.1
      rw [← hval] at hnear
      have hY0 : (0 : ℚ) ≤ (m2 : ℚ) * (2 : ℚ) ^ e2 :=
        mul_nonneg (Nat.cast_nonneg m2) (le_of_lt (two_zpow_pos e2))
      rw [← hy, mul_assoc, mul_assoc]
      generalize (m1 : ℚ) * (2 : ℚ) ^ e1 = Q at hnear hy1 ⊢
      generalize (m2 : ℚ) * (2 : ℚ) ^ e2 = Y at hnear hY0 ⊢
      generalize (a : ℚ) * (2 : ℚ) ^ exp = P at hnear hy0 ⊢
      have hx : ∀ s : Bool, |(if s = true then (-1 : ℚ) else 1) * Q - (if s = true then -1 else 1) * P|
          = |Q - P| := by
        intro s
        cases s
        · simp
        · simp only [if_true, neg_mul, one_mul]
          rw [← abs_neg]; congr 1; ring
      have hopp : |Q - P| ≤ Y + P := by
        refine le_trans hnear ?_
        rw [abs_le]; constructor <;> linarith
      rw [hx sg]
      cases sg <;> cases s2 <;> simp only [if_true, Bool.false_eq_true, if_false, neg_mul, one_mul]
      · exact hnear
      · refine le_trans hopp ?_
        rw [← abs_neg]
        refine le_trans ?_ (le_abs_self _)
        linarith
      · refine le_trans hopp ?_
        refine le_trans ?_ (le_abs_self _)
        linarith
      · rw [show -Y - -P = -(Y - P) by ring, abs_neg]
        exact hnear
  · unfold Scale
    rw [hmul, hround]
    have hip : integerPart ((if sg then -1 else 1) * (m1 : ℚ) * (2 : ℚ) ^ e1) =
        if sg then -⌊(m1 : ℚ) * (2 : ℚ) ^ e1⌋ else ⌊(m1 : ℚ) * (2 : ℚ) ^ e1⌋ := by
      rw [mul_assoc, integerPart_signed sg _ hy1]
    apply static_cast_int_finite _ _ _ _ rfl
    · rw [hip]; simp only [INT_MIN]
      cases sg with
      | false => simp only [Bool.false_eq_true, if_false]; omega
      | true =>
        simp only [if_true]
        have : (N : Int) ≤ 2147483648 := by exact_mod_cast hN
        omega
    · rw [hip]; simp only [INT_MAX]
      cases sg with
      | false =>
        simp only [Bool.false_eq_true, if_false]
        have : (N : Int) ≤ 2147483647 := by exact_mod_cast (hNpos rfl)
        omega
      | true => simp only [if_true]; omega

theorem Scale_one (source : Int) (hlo : INT_MIN ≤ source) (hhi : source ≤ INT_MAX) :
    Scale source Double.one = some source := by
  have hlt : source.natAbs < 2 ^ 32 := by
    simp only [INT_MIN, INT_MAX] at hlo hhi
    omega
  have hb : bitLength source.natAbs ≤ 32 := bitLength_le_of_lt _ _ hlt
  have hk : (max ((bitLength source.natAbs : Int) - 53) (-1074 - 0)).toNat = 0 := by omega
  have hmul : Double.mul (Double.ofInt source) Double.one =
      Double.finite (decide (source < 0)) source.natAbs 0 := by
    simp only [Double.mul, Double.ofInt, Double.one, Double.round, mul_one, add_zero,
      Bool.xor_false, hk, roundNearestEven_zero_right, Nat.cast_zero]
    by_cases h0 : source.natAbs = 0
    · simp [h0]
    · have h53 : ¬ source.natAbs = 2 ^ 53 := by omega
      have hno : ¬ ((bitLength source.natAbs : Int) > 1024) := by omega
      rw [if_neg h0, if_neg hno, if_neg h53]
  unfold Scale
  rw [hmul]
  simp only [static_cast_int, truncNat, le_refl, if_true, Int.toNat_zero, pow_zero, mul_one]
  have hv : (if decide (source < 0) = true then -((source.natAbs : Nat) : Int)
      else ((source.natAbs : Nat) : Int)) = source := by
    by_cases h : source < 0
    · simp only [h, decide_True, if_true]; omega
    · simp only [h, decide_False, Bool.false_eq_true, if_false]; omega
  rw [hv]
  simp [hlo, hhi]

theorem Scale_zero (sign : Bool) (mant : Nat) (exp : Int) :
    Scale 0 (Double.finite sign mant exp) = some 0 := by
  simp [Scale, Double.mul, Double.ofInt, Double.round, roundNearestEven_zero_left,
    static_cast_int, truncNat, INT_MIN, INT_MAX]

/-- C6 (amended): for every `int` `source` and every finite `double`
`scale_factor` whose exact product `p` with `source` lies in the `int` range,
`Scale` returns the integer part, rounded toward zero, of the `double`
product `x`: a finite `double` that is at least as close to `p` as every
other finite `double`. The conversion discards the fraction: `2.9` gives `2`
and `-2.9` gives `-2`. In particular `Scale(source, 1.0) = source` and
`Scale(0, scale_factor) = 0`. -/
theorem Scale_integerPart_of_double_product (source : Int) (scale_factor : Double) (p : ℚ)
    (hlo : INT_MIN ≤ source) (hhi : source ≤ INT_MAX)
    (hvalid : scale_factor.Valid)
    (hexact : exactProduct source scale_factor = some p)
    (hplo : (INT_MIN : ℚ) ≤ p) (hphi : p ≤ (INT_MAX : ℚ)) :
    (∃ x : ℚ, (Double.mul (Double.ofInt source) scale_factor).toRat = some x ∧
      (Double.mul (Double.ofInt source) scale_factor).Valid ∧
      (∀ d : Double, d.Valid → ∀ y : ℚ, d.toRat = some y → |x - p| ≤ |y - p|) ∧
      Scale source scale_factor = some (integerPart x)) ∧
    static_cast_int Double.twoPointNine = some 2 ∧
    static_cast_int Double.minusTwoPointNine = some (-2) ∧
    Scale source Double.one = some source ∧
    Scale 0 scale_factor = some 0 := by
  cases scale_factor with
  | inf s => simp [exactProduct, Double.toRat] at hexact
  | nan => simp [exactProduct, Double.toRat] at hexact
  | finite sign mant exp =>
    simp only [exactProduct, Double.toRat, Option.map_some', Option.some.injEq] at hexact
    subst hexact
    obtain ⟨x, hx, hnear, hscale⟩ := Scale_finite source sign mant exp hplo hphi
    refine ⟨⟨x, hx, ?_, hnear, hscale⟩, by decide, by decide, Scale_one source hlo hhi,
      Scale_zero sign mant exp⟩
    simp only [Double.mul, Double.ofInt]
    exact Double.round_valid _ _ _

/-- Witness for C6: `source = 5` and `scale_factor = 1.2`. -/
theorem Scale_integerPart_of_double_product_witness :
    Double.onePointTwo.Valid ∧
    exactProduct 5 Double.onePointTwo = some (27021597764222975 / 4503599627370496) ∧
    ((∃ x : ℚ, (Double.mul (Double.ofInt 5) Double.onePointTwo).toRat = some x ∧
      (Double.mul (Double.ofInt 5) Double.onePointTwo).Valid ∧
      (∀ d : Double, d.Valid → ∀ y : ℚ, d.toRat = some y →
        |x - 27021597764222975 / 4503599627370496| ≤
          |y - 27021597764222975 / 4503599627370496|) ∧
      Scale 5 Double.onePointTwo = some (integerPart x)) ∧
    static_cast_int Double.twoPointNine = some 2 ∧
    static_cast_int Double.minusTwoPointNine = some (-2) ∧
    Scale 5 Double.one = some 5 ∧
    Scale 0 Double.onePointTwo = some 0) :=
  have hexact : exactProduct 5 Double.onePointTwo =
      some (27021597764222975 / 4503599627370496) := by
    simp only [exactProduct, Double.onePointTwo, Double.toRat, Option.map_some',
      Option.some.injEq]
    norm_num
  ⟨by decide, hexact,
    Scale_integerPart_of_double_product 5 Double.onePointTwo _ (by decide) (by decide)
      (by decide) hexact (by norm_num [INT_MIN]) (by norm_num [INT_MAX])⟩

/-- C6 as stated fails at `source = 5`, `scale_factor = 1.2`: the exact
product `6 - 2^-52` lies in the `int` range and its integer part is `5`, but
the `double` product rounds to `6.0` and `Scale` returns `6`. -/
theorem Scale_exact_product_counterexample :
    INT_MIN ≤ 5 ∧ (5 : Int) ≤ INT_MAX ∧
    Double.onePointTwo.Valid ∧
    exactProduct 5 Double.onePointTwo = some (27021597764222975 / 4503599627370496) ∧
    (INT_MIN : ℚ) ≤ 27021597764222975 / 4503599627370496 ∧
    (27021597764222975 / 4503599627370496 : ℚ) ≤ (INT_MAX : ℚ) ∧
    integerPart (27021597764222975 / 4503599627370496) = 5 ∧
    Scale 5 Double.onePointTwo = some 6 ∧
    Scale 5 Double.onePointTwo ≠ some (integerPart (27021597764222975 / 4503599627370496)) := by
  have hexact : exactProduct 5 Double.onePointTwo =
      some (27021597764222975 / 4503599627370496) := by
    simp only [exactProduct, Double.onePointTwo, Double.toRat, Option.map_some',
      Option.some.injEq]
    norm_num
  have hip : integerPart (27021597764222975 / 4503599627370496) = 5 := by
    unfold integerPart
    rw [if_pos (by norm_num)]
    rw [Int.floor_eq_iff]
    constructor <;> norm_num
  have hscale : Scale 5 Double.onePointTwo = some 6 := by decide
  refine ⟨by decide, by decide, by decide, hexact, by norm_num [INT_MIN],
    by norm_num [INT_MAX], hip, hscale, ?_⟩
  rw [hip, hscale]
  decide

end Runner
